import Mathlib

/-!
# Provider registry and resolver of `pkg/signature/kms/kms.go`

A shallow embedding of the package-level registry `providersMux`, of
`AddProvider`, `Get` and `SupportedProviders`, and of the library function
`strings.HasPrefix` that `Get` calls.

Modelling choices.

* A Go `string` is a finite sequence of bytes: `GoString = List UInt8`.
* A Go `map[string]providerInit` is a finite map with unique keys: Mathlib's
  `AList`.  Assignment `m[k] = v` is `AList.insert` (insert or overwrite).
* The order in which `for ... range m` visits a map is not fixed by the
  language.  A `MapRange m` is one possible visiting order: a list holding
  every entry of `m` exactly once.  `Get` and `SupportedProviders` take the
  visiting order as an argument and the theorems quantify over all of them.
* A constructor (`providerInit`) is arbitrary backend code.  It is a function
  of its four arguments and of a world state `W` (everything outside the
  registry), returning its two results and the new world.
* `Get` additionally reports the list of constructor invocations it made, so
  that "invokes", "exactly once" and "never" can be stated.
-/

set_option linter.dupNamespace false

namespace kms

/-- A Go string: a sequence of bytes. -/
abbrev GoString := List UInt8

/-- The bytes of a string literal written with ASCII characters. -/
def bytes (s : String) : GoString := s.data.map (fun c => c.toNat.toUInt8)

/-- The type `crypto.Hash`, an unsigned integer selector. -/
abbrev Hash := Nat

/-- A non-nil Go `error` value: one built by `fmt.Errorf` from a constant
message, or any other error value (of a backend-chosen type `E`). -/
inductive GoError (E : Type) where
  | errorf (msg : String)
  | other (e : E)
  deriving DecidableEq, Repr

/-- The pair `(SignerVerifier, error)` a constructor and `Get` return; `none`
is Go's `nil`. -/
abbrev Result (SV E : Type) := Option SV × Option (GoError E)

/-- The function type
`func(context.Context, string, crypto.Hash, ...signature.RPCOption) (SignerVerifier, error)`,
with the world state it may read and change made explicit. -/
abbrev providerInit (Ctx SV E Opt W : Type) :=
  Ctx → GoString → Hash → List Opt → W → Result SV E × W

/-- The struct `providers`, whose only field is the map. -/
structure providers (Ctx SV E Opt W : Type) where
  providers : AList (fun _ : GoString => providerInit Ctx SV E Opt W)

/-- Program state: the package variable `providersMux` and the rest of the
world. -/
structure State (Ctx SV E Opt W : Type) where
  providersMux : providers Ctx SV E Opt W
  world : W

/-- One visiting order of `for ... range m`: every entry of the map, once. -/
structure MapRange {V : Type} (m : AList (fun _ : GoString => V)) where
  entries : List (Sigma (fun _ : GoString => V))
  perm : entries.Perm m.entries

/-- The visiting order that follows the stored order of the entries. -/
def MapRange.stored {V : Type} (m : AList (fun _ : GoString => V)) : MapRange m :=
  ⟨m.entries, List.Perm.refl _⟩

/-- The visiting order opposite to the stored order. -/
def MapRange.reversed {V : Type} (m : AList (fun _ : GoString => V)) : MapRange m :=
  ⟨m.entries.reverse, List.reverse_perm _⟩

/-- `strings.HasPrefix` of the Go standard library:
`len(s) >= len(prefix) && s[:len(prefix)] == prefix`. -/
def HasPrefix (s pfx : GoString) : Bool :=
  decide (s.length ≥ pfx.length) && (s.take pfx.length == pfx)

/-- The state at process start: `providersMux` holds an empty map. -/
def initial {Ctx SV E Opt W : Type} (w : W) : State Ctx SV E Opt W :=
  { providersMux := { providers := ∅ }, world := w }

/-- `AddProvider`: `providersMux.providers[keyResourceID] = init`. -/
def AddProvider {Ctx SV E Opt W : Type} (keyResourceID : GoString)
    (init : providerInit Ctx SV E Opt W) (s : State Ctx SV E Opt W) :
    State Ctx SV E Opt W :=
  { s with providersMux := { providers := s.providersMux.providers.insert keyResourceID init } }

/-- A record of one constructor call: the map key under which the constructor
was found, the constructor, and the four arguments it was called with. -/
structure Invocation (Ctx SV E Opt W : Type) where
  ref : GoString
  providerInit : providerInit Ctx SV E Opt W
  ctx : Ctx
  keyResourceID : GoString
  hashFunc : Hash
  opts : List Opt

/-- What a call of `Get` produces: the returned pair, the state after the
call, and the constructor calls made, in order. -/
structure GetOutcome (Ctx SV E Opt W : Type) where
  ret : Result SV E
  state : State Ctx SV E Opt W
  calls : List (Invocation Ctx SV E Opt W)

/-- The body of `Get` over the entries still to be visited. -/
def Get.loop {Ctx SV E Opt W : Type} (s : State Ctx SV E Opt W) (ctx : Ctx)
    (keyResourceID : GoString) (hashFunc : Hash) (opts : List Opt) :
    List (Sigma (fun _ : GoString => providerInit Ctx SV E Opt W)) →
      GetOutcome Ctx SV E Opt W
  | [] =>
    { ret := (none, some (GoError.errorf "no provider found for that key reference")),
      state := s, calls := [] }
  | ⟨ref, providerInit⟩ :: rest =>
    if HasPrefix keyResourceID ref then
      let r := providerInit ctx keyResourceID hashFunc opts s.world
      { ret := r.1, state := { s with world := r.2 },
        calls := [⟨ref, providerInit, ctx, keyResourceID, hashFunc, opts⟩] }
    else Get.loop s ctx keyResourceID hashFunc opts rest

/-- `Get`, run with the visiting order `order` of the registry map. -/
def Get {Ctx SV E Opt W : Type} (s : State Ctx SV E Opt W)
    (order : MapRange s.providersMux.providers) (ctx : Ctx)
    (keyResourceID : GoString) (hashFunc : Hash) (opts : List Opt) :
    GetOutcome Ctx SV E Opt W :=
  Get.loop s ctx keyResourceID hashFunc opts order.entries

/-- `SupportedProviders`, run with the visiting order `order`: the keys are
appended one by one to an initially nil slice.  The state is returned
next to the slice. -/
def SupportedProviders {Ctx SV E Opt W : Type} (s : State Ctx SV E Opt W)
    (order : MapRange s.providersMux.providers) :
    List GoString × State Ctx SV E Opt W :=
  (order.entries.foldl (fun keys e => keys ++ [e.1]) [], s)

/-- The state after a sequence of `AddProvider` calls, given as the list of
their argument pairs in call order, applied to the state at process start. -/
def register {Ctx SV E Opt W : Type} (calls : List (GoString × providerInit Ctx SV E Opt W))
    (w : W) : State Ctx SV E Opt W :=
  calls.foldl (fun s c => AddProvider c.1 c.2 s) (initial w)

/-- The error `Get` itself raises. -/
def noProvider {E : Type} : GoError E :=
  GoError.errorf "no provider found for that key reference"

/-- One call of the package's interface, with its arguments. -/
inductive Call (Ctx SV E Opt W : Type) where
  | addProvider (keyResourceID : GoString) (init : providerInit Ctx SV E Opt W)
  | get (ctx : Ctx) (keyResourceID : GoString) (hashFunc : Hash) (opts : List Opt)
  | supportedProviders

/-- The state change of one call.  `Get` and `SupportedProviders` may visit the
map in any order, so a call can have several possible successor states. -/
inductive Step {Ctx SV E Opt W : Type} :
    State Ctx SV E Opt W → Call Ctx SV E Opt W → State Ctx SV E Opt W → Prop where
  | addProvider (s : State Ctx SV E Opt W) (keyResourceID : GoString)
      (init : providerInit Ctx SV E Opt W) :
      Step s (Call.addProvider keyResourceID init) (AddProvider keyResourceID init s)
  | get (s : State Ctx SV E Opt W) (order : MapRange s.providersMux.providers) (ctx : Ctx)
      (keyResourceID : GoString) (hashFunc : Hash) (opts : List Opt) :
      Step s (Call.get ctx keyResourceID hashFunc opts)
        (Get s order ctx keyResourceID hashFunc opts).state
  | supportedProviders (s : State Ctx SV E Opt W) (order : MapRange s.providersMux.providers) :
      Step s Call.supportedProviders (SupportedProviders s order).2

/-- The state change of a sequence of calls, made one after the other. -/
inductive Run {Ctx SV E Opt W : Type} :
    State Ctx SV E Opt W → List (Call Ctx SV E Opt W) → State Ctx SV E Opt W → Prop where
  | nil (s : State Ctx SV E Opt W) : Run s [] s
  | cons {s t u : State Ctx SV E Opt W} {c : Call Ctx SV E Opt W}
      {cs : List (Call Ctx SV E Opt W)} (hstep : Step s c t) (hrest : Run t cs u) :
      Run s (c :: cs) u

/-! ## Concrete registries used to evaluate the definitions -/

namespace Example

/-- A stub SignerVerifier, reduced to its two introspection methods. -/
structure StubSV where
  DefaultAlgorithm : String
  SupportedAlgorithms : List String
  deriving DecidableEq, Repr

/-- Constructors over a unit context, string errors, numeric options and a
world that counts constructor calls. -/
abbrev Init := providerInit Unit StubSV String Nat Nat

/-- States over the same types. -/
abbrev St := State Unit StubSV String Nat Nat

/-- A constructor that succeeds with a stub whose default algorithm is `alg`. -/
def stub (alg : String) : Init :=
  fun _ _ _ _ w => ((some ⟨alg, ["ecdsa", "rsa"]⟩, none), w + 1)

/-- A constructor that fails with the error `msg` and returns no object. -/
def failing (msg : String) : Init :=
  fun _ _ _ _ w => ((none, some (GoError.other msg)), w + 1)

/-- The empty registry. -/
def empty : St := initial 0

/-- The registry after `AddProvider("test-kms://", stub "ecdsa")`. -/
def testKms : St := AddProvider (bytes "test-kms://") (stub "ecdsa") empty

/-- The registry after registering `"a"` and then `"ab"`. -/
def overlap : St :=
  AddProvider (bytes "ab") (stub "AB") (AddProvider (bytes "a") (stub "A") empty)

/-- The registry after registering `"ab"` with a succeeding constructor and
then `"a"` with a failing one. -/
def failFirst : St :=
  AddProvider (bytes "a") (failing "boom") (AddProvider (bytes "ab") (stub "AB") empty)

/-- The registry after registering `"test-kms://"` and then the empty prefix. -/
def withEmpty : St := AddProvider [] (stub "any") testKms

/-- The registry after registering `"a"`, `"ab"` and then `"x"`. -/
def withX : St := AddProvider (bytes "x") (stub "X") overlap

/-- The registry after registering `"a"` and then `"b"`. -/
def apart : St :=
  AddProvider (bytes "b") (stub "B") (AddProvider (bytes "a") (stub "A") empty)

end Example

/-! ## Lemmas about the definitions -/

theorem HasPrefix_iff (s pfx : GoString) : HasPrefix s pfx = true ↔ pfx <+: s := by
  unfold HasPrefix
  simp only [Bool.and_eq_true, decide_eq_true_eq, beq_iff_eq]
  constructor
  · rintro ⟨_, h⟩
    exact h ▸ List.take_prefix _ _
  · intro h
    exact ⟨h.length_le, List.prefix_iff_eq_take.mp h |>.symm⟩

theorem mem_range_key {V : Type} {m : AList (fun _ : GoString => V)} (order : MapRange m)
    {e : Sigma (fun _ : GoString => V)} (he : e ∈ order.entries) : e.1 ∈ m.keys := by
  have h := order.perm.mem_iff.mp he
  exact List.mem_keys_of_mem h

theorem Get_loop_no_match {Ctx SV E Opt W : Type} (s : State Ctx SV E Opt W) (ctx : Ctx)
    (I : GoString) (h : Hash) (opts : List Opt)
    (l : List (Sigma (fun _ : GoString => providerInit Ctx SV E Opt W)))
    (hno : ∀ e ∈ l, HasPrefix I e.1 = false) :
    Get.loop s ctx I h opts l = ⟨(none, some noProvider), s, []⟩ := by
  induction l with
  | nil => rfl
  | cons e rest ih =>
    obtain ⟨ref, init⟩ := e
    have h1 : HasPrefix I ref = false := hno ⟨ref, init⟩ (List.mem_cons_self _ _)
    simp only [Get.loop, h1]
    exact ih (fun e he => hno e (List.mem_cons_of_mem _ he))

theorem Get_loop_first {Ctx SV E Opt W : Type} (s : State Ctx SV E Opt W) (ctx : Ctx)
    (I : GoString) (h : Hash) (opts : List Opt)
    (pre post : List (Sigma (fun _ : GoString => providerInit Ctx SV E Opt W)))
    (e : Sigma (fun _ : GoString => providerInit Ctx SV E Opt W))
    (hpre : ∀ x ∈ pre, HasPrefix I x.1 = false) (he : HasPrefix I e.1 = true) :
    Get.loop s ctx I h opts (pre ++ e :: post)
      = ⟨(e.2 ctx I h opts s.world).1, { s with world := (e.2 ctx I h opts s.world).2 },
          [⟨e.1, e.2, ctx, I, h, opts⟩]⟩ := by
  induction pre with
  | nil =>
    obtain ⟨ref, init⟩ := e
    simp only [List.nil_append, Get.loop]
    rw [if_pos he]
  | cons x rest ih =>
    obtain ⟨ref, init⟩ := x
    have h1 : HasPrefix I ref = false := hpre ⟨ref, init⟩ (List.mem_cons_self _ _)
    simp only [List.cons_append, Get.loop, h1]
    exact ih (fun y hy => hpre y (List.mem_cons_of_mem _ hy))

theorem exists_first_match {α : Type} (p : α → Bool) (l : List α) (hex : ∃ x ∈ l, p x = true) :
    ∃ pre e post, l = pre ++ e :: post ∧ (∀ x ∈ pre, p x = false) ∧ p e = true := by
  induction l with
  | nil => obtain ⟨x, hx, _⟩ := hex; cases hx
  | cons a rest ih =>
    by_cases ha : p a = true
    · exact ⟨[], a, rest, rfl, fun x hx => absurd hx (List.not_mem_nil x), ha⟩
    · have hex2 : ∃ x ∈ rest, p x = true := by
        obtain ⟨x, hx, hpx⟩ := hex
        rcases List.mem_cons.mp hx with rfl | hx
        · exact absurd hpx ha
        · exact ⟨x, hx, hpx⟩
      obtain ⟨pre, e, post, hl, hpre, he⟩ := ih hex2
      refine ⟨a :: pre, e, post, by rw [hl]; rfl, ?_, he⟩
      intro x hx
      rcases List.mem_cons.mp hx with rfl | hx
      · simpa using ha
      · exact hpre x hx

theorem range_entry_of_lookup {V : Type} {m : AList (fun _ : GoString => V)} (order : MapRange m)
    {P : GoString} {v : V} (hP : m.lookup P = some v) :
    (⟨P, v⟩ : Sigma (fun _ : GoString => V)) ∈ order.entries :=
  order.perm.mem_iff.mpr (AList.mem_lookup_iff.mp hP)

theorem lookup_of_range_entry {V : Type} {m : AList (fun _ : GoString => V)} (order : MapRange m)
    {e : Sigma (fun _ : GoString => V)} (he : e ∈ order.entries) :
    m.lookup e.1 = some e.2 :=
  AList.mem_lookup_iff.mpr (order.perm.mem_iff.mp he)

theorem Get_loop_calls {Ctx SV E Opt W : Type} (s : State Ctx SV E Opt W) (ctx : Ctx)
    (I : GoString) (h : Hash) (opts : List Opt)
    (l : List (Sigma (fun _ : GoString => providerInit Ctx SV E Opt W)))
    (c : Invocation Ctx SV E Opt W) (hc : c ∈ (Get.loop s ctx I h opts l).calls) :
    (⟨c.ref, c.providerInit⟩ : Sigma (fun _ : GoString => providerInit Ctx SV E Opt W)) ∈ l
      ∧ HasPrefix I c.ref = true
      ∧ c = ⟨c.ref, c.providerInit, ctx, I, h, opts⟩
      ∧ Get.loop s ctx I h opts l
          = ⟨(c.providerInit ctx I h opts s.world).1,
              { s with world := (c.providerInit ctx I h opts s.world).2 }, [c]⟩ := by
  induction l with
  | nil => simp [Get.loop] at hc
  | cons e rest ih =>
    obtain ⟨ref, init⟩ := e
    by_cases hm : HasPrefix I ref = true
    · simp only [Get.loop, hm, if_true, List.mem_singleton] at hc
      subst hc
      refine ⟨List.mem_cons_self _ _, hm, rfl, ?_⟩
      simp only [Get.loop, hm, if_true]
    · have hm2 : HasPrefix I ref = false := by simpa using hm
      simp only [Get.loop, hm2] at hc ⊢
      obtain ⟨h1, h2, h3, h4⟩ := ih hc
      exact ⟨List.mem_cons_of_mem _ h1, h2, h3, h4⟩

theorem foldl_append_keys {α β : Type} (f : α → β) (l : List α) (acc : List β) :
    l.foldl (fun keys e => keys ++ [f e]) acc = acc ++ l.map f := by
  induction l generalizing acc with
  | nil => simp
  | cons a rest ih => simp [List.foldl, ih]

theorem count_eq_one_of_nodup (l : List GoString) (k : GoString) (hnd : l.Nodup)
    (hk : k ∈ l) : l.count k = 1 := by
  have e : (List.instBEq : BEq GoString) = instBEqOfDecidableEq := by
    refine congrArg BEq.mk ?_
    funext a b
    show (a == b) = decide (a = b)
    by_cases hab : a = b <;> simp [hab]
  rw [e]
  exact List.count_eq_one_of_mem hnd hk

theorem SupportedProviders_perm_keys {Ctx SV E Opt W : Type} (s : State Ctx SV E Opt W)
    (order : MapRange s.providersMux.providers) :
    (SupportedProviders s order).1.Perm s.providersMux.providers.keys := by
  unfold SupportedProviders
  rw [foldl_append_keys]
  simpa [AList.keys, List.keys] using order.perm.map Sigma.fst

theorem mem_keys_foldl_AddProvider {Ctx SV E Opt W : Type}
    (calls : List (GoString × providerInit Ctx SV E Opt W)) (s : State Ctx SV E Opt W)
    (k : GoString) :
    k ∈ (calls.foldl (fun s c => AddProvider c.1 c.2 s) s).providersMux.providers.keys
      ↔ k ∈ s.providersMux.providers.keys ∨ k ∈ calls.map Prod.fst := by
  induction calls generalizing s with
  | nil => simp
  | cons c rest ih =>
    rw [List.foldl_cons, ih]
    simp only [AddProvider, ← AList.mem_keys, AList.mem_insert, List.map_cons, List.mem_cons]
    tauto

theorem Get_loop_registry {Ctx SV E Opt W : Type} (s : State Ctx SV E Opt W) (ctx : Ctx)
    (I : GoString) (h : Hash) (opts : List Opt)
    (l : List (Sigma (fun _ : GoString => providerInit Ctx SV E Opt W))) :
    (Get.loop s ctx I h opts l).state.providersMux = s.providersMux := by
  induction l with
  | nil => rfl
  | cons e rest ih =>
    obtain ⟨ref, init⟩ := e
    by_cases hm : HasPrefix I ref = true
    · simp only [Get.loop, hm, if_true]
    · have hm2 : HasPrefix I ref = false := by simpa using hm
      simp only [Get.loop, hm2]
      exact ih

theorem HasPrefix_iff_append (I P : GoString) : HasPrefix I P = true ↔ ∃ S, I = P ++ S := by
  rw [HasPrefix_iff]
  constructor
  · rintro ⟨S, hS⟩
    exact ⟨S, hS.symm⟩
  · rintro ⟨S, hS⟩
    exact ⟨S, hS.symm⟩

theorem Get_of_match {Ctx SV E Opt W : Type} (s : State Ctx SV E Opt W)
    (order : MapRange s.providersMux.providers) (ctx : Ctx) (I : GoString) (h : Hash)
    (opts : List Opt) (P : GoString) (hP : P ∈ s.providersMux.providers.keys)
    (hI : HasPrefix I P = true) :
    ∃ e, e ∈ s.providersMux.providers.entries ∧ HasPrefix I e.1 = true
      ∧ Get s order ctx I h opts
          = ⟨(e.2 ctx I h opts s.world).1, { s with world := (e.2 ctx I h opts s.world).2 },
              [⟨e.1, e.2, ctx, I, h, opts⟩]⟩ := by
  obtain ⟨v, hv⟩ := Option.isSome_iff_exists.mp (AList.lookup_isSome.mpr (AList.mem_keys.mpr hP))
  have hmem := range_entry_of_lookup order hv
  obtain ⟨pre, e, post, hl, hpre, he⟩ :=
    exists_first_match (fun x => HasPrefix I x.1) order.entries ⟨⟨P, v⟩, hmem, hI⟩
  have hemem : e ∈ order.entries := by rw [hl]; simp
  refine ⟨e, order.perm.mem_iff.mp hemem, he, ?_⟩
  unfold Get
  rw [hl]
  exact Get_loop_first s ctx I h opts pre post e hpre he

theorem HasPrefix_nil (I : GoString) : HasPrefix I [] = true := by
  simp [HasPrefix]

theorem Step_keeps_keys {Ctx SV E Opt W : Type} {s t : State Ctx SV E Opt W}
    {c : Call Ctx SV E Opt W} (hstep : Step s c t) (k : GoString)
    (hk : k ∈ s.providersMux.providers.keys) : k ∈ t.providersMux.providers.keys := by
  cases hstep with
  | addProvider keyResourceID init =>
    have h1 : k ∈ s.providersMux.providers := AList.mem_keys.mpr hk
    exact AList.mem_keys.mp ((AList.mem_insert _).mpr (Or.inr h1))
  | get order ctx keyResourceID hashFunc opts =>
    have hreg := Get_loop_registry s ctx keyResourceID hashFunc opts order.entries
    unfold Get
    rw [hreg]
    exact hk
  | supportedProviders order => exact hk

theorem Run_keeps_keys {Ctx SV E Opt W : Type} {s t : State Ctx SV E Opt W}
    {cs : List (Call Ctx SV E Opt W)} (hrun : Run s cs t) (k : GoString)
    (hk : k ∈ s.providersMux.providers.keys) : k ∈ t.providersMux.providers.keys := by
  induction hrun with
  | nil s => exact hk
  | cons hstep _ ih => exact ih (Step_keeps_keys hstep k hk)

theorem Step_total {Ctx SV E Opt W : Type} (s : State Ctx SV E Opt W)
    (c : Call Ctx SV E Opt W) : ∃ t, Step s c t := by
  cases c with
  | addProvider keyResourceID init => exact ⟨_, Step.addProvider s keyResourceID init⟩
  | get ctx keyResourceID hashFunc opts =>
    exact ⟨_, Step.get s (MapRange.stored _) ctx keyResourceID hashFunc opts⟩
  | supportedProviders => exact ⟨_, Step.supportedProviders s (MapRange.stored _)⟩

theorem Run_total {Ctx SV E Opt W : Type} (cs : List (Call Ctx SV E Opt W))
    (s : State Ctx SV E Opt W) : ∃ t, Run s cs t := by
  induction cs generalizing s with
  | nil => exact ⟨s, Run.nil s⟩
  | cons c rest ih =>
    obtain ⟨t, ht⟩ := Step_total s c
    obtain ⟨u, hu⟩ := ih t
    exact ⟨u, Run.cons ht hu⟩

theorem filter_ne_kerase {V : Type} (P : GoString)
    (l : List (Sigma (fun _ : GoString => V))) :
    (List.kerase P l).filter (fun e => decide (e.1 ≠ P))
      = l.filter (fun e => decide (e.1 ≠ P)) := by
  induction l with
  | nil => simp
  | cons e rest ih =>
    by_cases hP : P = e.1
    · rw [List.kerase_cons_eq hP, List.filter_cons_of_neg (by simp [hP])]
    · rw [List.kerase_cons_ne hP]
      have hne : e.1 ≠ P := fun h => hP h.symm
      rw [List.filter_cons_of_pos (by simpa using hne),
        List.filter_cons_of_pos (by simpa using hne), ih]

theorem kerase_eq_filter_of_nodupKeys {V : Type} (P : GoString)
    (l : List (Sigma (fun _ : GoString => V))) (nd : l.NodupKeys) :
    List.kerase P l = l.filter (fun e => decide (e.1 ≠ P)) := by
  induction l with
  | nil => simp
  | cons e rest ih =>
    obtain ⟨hnot, ndrest⟩ := List.nodupKeys_cons.mp nd
    by_cases hP : P = e.1
    · rw [List.kerase_cons_eq hP, List.filter_cons_of_neg (by simp [hP])]
      symm
      apply List.filter_eq_self.mpr
      intro x hx
      have hxk : x.1 ∈ rest.keys := List.mem_keys_of_mem hx
      have hxne : x.1 ≠ P := by
        intro hxP
        rw [hxP, hP] at hxk
        exact hnot hxk
      simpa using hxne
    · rw [List.kerase_cons_ne hP]
      have hne : e.1 ≠ P := fun h => hP h.symm
      rw [List.filter_cons_of_pos (by simpa using hne), ih ndrest]

theorem Get_loop_filter {Ctx SV E Opt W : Type} (s : State Ctx SV E Opt W) (ctx : Ctx)
    (I : GoString) (h : Hash) (opts : List Opt) (P : GoString)
    (hP : HasPrefix I P = false)
    (l : List (Sigma (fun _ : GoString => providerInit Ctx SV E Opt W))) :
    Get.loop s ctx I h opts (l.filter (fun e => decide (e.1 ≠ P)))
      = Get.loop s ctx I h opts l := by
  induction l with
  | nil => rfl
  | cons e rest ih =>
    obtain ⟨ref, init⟩ := e
    by_cases hk : ref = P
    · rw [List.filter_cons_of_neg (by simp [hk]), ih]
      subst hk
      simp only [Get.loop, hP]
      rfl
    · rw [List.filter_cons_of_pos (by simpa using hk)]
      by_cases hm : HasPrefix I ref = true
      · simp only [Get.loop, hm, if_true]
      · have hm2 : HasPrefix I ref = false := by simpa using hm
        simp only [Get.loop, hm2]
        exact ih

theorem Get_loop_world_congr {Ctx SV E Opt W : Type} (s t : State Ctx SV E Opt W)
    (hw : s.world = t.world) (ctx : Ctx) (I : GoString) (h : Hash) (opts : List Opt)
    (l : List (Sigma (fun _ : GoString => providerInit Ctx SV E Opt W))) :
    (Get.loop s ctx I h opts l).ret = (Get.loop t ctx I h opts l).ret
      ∧ (Get.loop s ctx I h opts l).calls = (Get.loop t ctx I h opts l).calls
      ∧ (Get.loop s ctx I h opts l).state.world = (Get.loop t ctx I h opts l).state.world := by
  induction l with
  | nil => exact ⟨rfl, rfl, hw⟩
  | cons e rest ih =>
    obtain ⟨ref, init⟩ := e
    by_cases hm : HasPrefix I ref = true
    · have e1 : Get.loop s ctx I h opts (⟨ref, init⟩ :: rest)
          = ⟨(init ctx I h opts s.world).1, { s with world := (init ctx I h opts s.world).2 },
              [⟨ref, init, ctx, I, h, opts⟩]⟩ :=
        Get_loop_first s ctx I h opts [] rest ⟨ref, init⟩
          (fun x hx => absurd hx (List.not_mem_nil x)) hm
      have e2 : Get.loop t ctx I h opts (⟨ref, init⟩ :: rest)
          = ⟨(init ctx I h opts t.world).1, { t with world := (init ctx I h opts t.world).2 },
              [⟨ref, init, ctx, I, h, opts⟩]⟩ :=
        Get_loop_first t ctx I h opts [] rest ⟨ref, init⟩
          (fun x hx => absurd hx (List.not_mem_nil x)) hm
      rw [e1, e2, hw]
      exact ⟨rfl, rfl, rfl⟩
    · have hm2 : HasPrefix I ref = false := by simpa using hm
      simp only [Get.loop, hm2]
      exact ih

theorem Get_determined {Ctx SV E Opt W : Type} (s : State Ctx SV E Opt W)
    (o1 o2 : MapRange s.providersMux.providers) (ctx : Ctx) (I : GoString) (h : Hash)
    (opts : List Opt)
    (hone : ∀ Q1 ∈ s.providersMux.providers.keys, ∀ Q2 ∈ s.providersMux.providers.keys,
      HasPrefix I Q1 = true → HasPrefix I Q2 = true → Q1 = Q2) :
    Get s o1 ctx I h opts = Get s o2 ctx I h opts := by
  by_cases hex : ∃ P ∈ s.providersMux.providers.keys, HasPrefix I P = true
  · obtain ⟨P, hP, hI⟩ := hex
    obtain ⟨e1, hm1, hp1, hg1⟩ := Get_of_match s o1 ctx I h opts P hP hI
    obtain ⟨e2, hm2, hp2, hg2⟩ := Get_of_match s o2 ctx I h opts P hP hI
    have hkey : e1.1 = e2.1 :=
      hone e1.1 (List.mem_keys_of_mem hm1) e2.1 (List.mem_keys_of_mem hm2) hp1 hp2
    have hl1 : s.providersMux.providers.lookup e1.1 = some e1.2 := AList.mem_lookup_iff.mpr hm1
    have hl2 : s.providersMux.providers.lookup e2.1 = some e2.2 := AList.mem_lookup_iff.mpr hm2
    rw [hkey, hl2] at hl1
    have hval : e2.2 = e1.2 := Option.some.inj hl1
    rw [hg1, hg2, hkey, hval]
  · have hno : ∀ P ∈ s.providersMux.providers.keys, HasPrefix I P = false := by
      intro P hP
      by_contra hne
      exact hex ⟨P, hP, by simpa using hne⟩
    unfold Get
    rw [Get_loop_no_match s ctx I h opts o1.entries
        (fun e he => hno e.1 (mem_range_key o1 he)),
      Get_loop_no_match s ctx I h opts o2.entries
        (fun e he => hno e.1 (mem_range_key o2 he))]

/-! ## The claims -/

/-- C1: when no registered prefix is a prefix of the identifier, `Get` returns
the nil SignerVerifier with the error "no provider found for that key
reference", makes no constructor call and leaves the state as it was; this
holds for every registry (the empty one included) and every visiting order. -/
theorem Get_no_provider_found {Ctx SV E Opt W : Type} (s : State Ctx SV E Opt W)
    (order : MapRange s.providersMux.providers) (ctx : Ctx) (I : GoString) (h : Hash)
    (opts : List Opt)
    (hno : ∀ P ∈ s.providersMux.providers.keys, HasPrefix I P = false) :
    (Get s order ctx I h opts).ret
        = (none, some (GoError.errorf "no provider found for that key reference"))
      ∧ (Get s order ctx I h opts).calls = []
      ∧ (Get s order ctx I h opts).state = s := by
  have hl := Get_loop_no_match s ctx I h opts order.entries
    (fun e he => hno e.1 (mem_range_key order he))
  unfold Get
  rw [hl]
  exact ⟨rfl, rfl, rfl⟩

/-- Witness for C1: `Get(ctx, "unknown://my-key", 0)` on the registry that holds
only `"test-kms://"`. -/
theorem Get_no_provider_found_witness :
    (∀ P ∈ Example.testKms.providersMux.providers.keys,
        HasPrefix (bytes "unknown://my-key") P = false)
      ∧ (Get Example.testKms (MapRange.stored _) () (bytes "unknown://my-key") 0 []).ret
          = (none, some (GoError.errorf "no provider found for that key reference"))
      ∧ (Get Example.testKms (MapRange.stored _) () (bytes "unknown://my-key") 0 []).calls = []
      ∧ (Get Example.testKms (MapRange.stored _) () (bytes "unknown://my-key") 0 []).state
          = Example.testKms :=
  ⟨by decide,
   Get_no_provider_found Example.testKms (MapRange.stored _) () (bytes "unknown://my-key") 0 []
     (by decide)⟩

/-- C2, as stated, fails: in the registry holding `"a"` and `"ab"`, the
identifier `"abc"` starts with the registered prefix `"ab"`, no registered
prefix longer than `"ab"` is a prefix of it, and yet under the visiting order
that reaches `"a"` first `Get` invokes the constructor of `"a"` and returns its
result, not the one of `"ab"`. -/
theorem Get_longest_prefix_counterexample :
    AList.lookup (bytes "ab") Example.overlap.providersMux.providers = some (Example.stub "AB")
      ∧ HasPrefix (bytes "abc") (bytes "ab") = true
      ∧ (∀ Q ∈ Example.overlap.providersMux.providers.keys,
          (bytes "ab").length < Q.length → HasPrefix (bytes "abc") Q = false)
      ∧ (Get Example.overlap (MapRange.reversed _) () (bytes "abc") 0 []).calls.map
          Invocation.ref = [bytes "a"]
      ∧ (Get Example.overlap (MapRange.reversed _) () (bytes "abc") 0 []).ret
          = (Example.stub "A" () (bytes "abc") 0 [] 0).1
      ∧ (Get Example.overlap (MapRange.reversed _) () (bytes "abc") 0 []).ret
          ≠ (Example.stub "AB" () (bytes "abc") 0 [] 0).1 := by
  refine ⟨rfl, by decide, by decide, by decide, by decide, by decide⟩

/-- C2, amended: when the identifier starts with the registered prefix `P` and
no other registered prefix is a prefix of it, then under every visiting order
`Get` makes exactly one constructor call, to the constructor registered for
`P`, and returns that call's result (and world) unchanged. -/
theorem Get_unique_match {Ctx SV E Opt W : Type} (s : State Ctx SV E Opt W)
    (order : MapRange s.providersMux.providers) (ctx : Ctx) (I : GoString) (h : Hash)
    (opts : List Opt) (P : GoString) (init : providerInit Ctx SV E Opt W)
    (hP : s.providersMux.providers.lookup P = some init)
    (hI : HasPrefix I P = true)
    (huniq : ∀ Q ∈ s.providersMux.providers.keys, Q ≠ P → HasPrefix I Q = false) :
    (Get s order ctx I h opts).calls = [⟨P, init, ctx, I, h, opts⟩]
      ∧ (Get s order ctx I h opts).ret = (init ctx I h opts s.world).1
      ∧ (Get s order ctx I h opts).state
          = { s with world := (init ctx I h opts s.world).2 } := by
  have hmem := range_entry_of_lookup order hP
  obtain ⟨pre, e, post, hl, hpre, he⟩ :=
    exists_first_match (fun x => HasPrefix I x.1) order.entries ⟨⟨P, init⟩, hmem, hI⟩
  have hemem : e ∈ order.entries := by rw [hl]; simp
  have hkey : e.1 = P := by
    by_contra hne
    have := huniq e.1 (mem_range_key order hemem) hne
    simp [this] at he
  have hlook := lookup_of_range_entry order hemem
  rw [hkey, hP] at hlook
  have hval : e.2 = init := (Option.some.inj hlook).symm
  have hloop := Get_loop_first s ctx I h opts pre post e hpre he
  unfold Get
  rw [hl, hloop, hkey, hval]
  exact ⟨rfl, rfl, rfl⟩

/-- Witness for C2 (amended): `Get(ctx, "test-kms://my-key", 0)` on the registry
holding only `"test-kms://"`. -/
theorem Get_unique_match_witness :
    (AList.lookup (bytes "test-kms://") Example.testKms.providersMux.providers
        = some (Example.stub "ecdsa")
      ∧ HasPrefix (bytes "test-kms://my-key") (bytes "test-kms://") = true
      ∧ (∀ Q ∈ Example.testKms.providersMux.providers.keys,
          Q ≠ bytes "test-kms://" → HasPrefix (bytes "test-kms://my-key") Q = false))
      ∧ (Get Example.testKms (MapRange.stored _) () (bytes "test-kms://my-key") 0 []).calls
          = [⟨bytes "test-kms://", Example.stub "ecdsa", (), bytes "test-kms://my-key", 0, []⟩]
      ∧ (Get Example.testKms (MapRange.stored _) () (bytes "test-kms://my-key") 0 []).ret
          = (Example.stub "ecdsa" () (bytes "test-kms://my-key") 0 [] Example.testKms.world).1
      ∧ (Get Example.testKms (MapRange.stored _) () (bytes "test-kms://my-key") 0 []).state
          = { Example.testKms with
              world := (Example.stub "ecdsa" () (bytes "test-kms://my-key") 0 []
                Example.testKms.world).2 } :=
  ⟨⟨rfl, by decide, by decide⟩,
   Get_unique_match Example.testKms (MapRange.stored _) () (bytes "test-kms://my-key") 0 []
     (bytes "test-kms://") (Example.stub "ecdsa") rfl (by decide) (by decide)⟩

/-- C3: after `AddProvider(P, C1)` followed by `AddProvider(P, C2)` the registry
maps `P` to `C2` and to nothing else (it is the registry that `AddProvider(P, C2)`
alone produces), and every `Get` that is resolved through the entry for `P`
makes its single constructor call to `C2` and returns the result of `C2`.
`AddProvider` is a total function with no error result. -/
theorem AddProvider_last_wins {Ctx SV E Opt W : Type} (s : State Ctx SV E Opt W)
    (P : GoString) (C1 C2 : providerInit Ctx SV E Opt W) :
    (AddProvider P C2 (AddProvider P C1 s)).providersMux.providers.lookup P = some C2
      ∧ (∀ e ∈ (AddProvider P C2 (AddProvider P C1 s)).providersMux.providers.entries,
          e.1 = P → e.2 = C2)
      ∧ AddProvider P C2 (AddProvider P C1 s) = AddProvider P C2 s
      ∧ (∀ (order : MapRange (AddProvider P C2 (AddProvider P C1 s)).providersMux.providers)
          (ctx : Ctx) (I : GoString) (h : Hash) (opts : List Opt),
          ∀ c ∈ (Get (AddProvider P C2 (AddProvider P C1 s)) order ctx I h opts).calls,
            c.ref = P →
              (Get (AddProvider P C2 (AddProvider P C1 s)) order ctx I h opts).calls
                  = [⟨P, C2, ctx, I, h, opts⟩]
                ∧ (Get (AddProvider P C2 (AddProvider P C1 s)) order ctx I h opts).ret
                  = (C2 ctx I h opts s.world).1) := by
  have hlook : (AddProvider P C2 (AddProvider P C1 s)).providersMux.providers.lookup P
      = some C2 := by
    simp [AddProvider]
  refine ⟨hlook, ?_, ?_, ?_⟩
  · intro e he hk
    have h1 := AList.mem_lookup_iff.mpr he
    rw [hk, hlook] at h1
    exact (Option.some.inj h1).symm
  · simp [AddProvider, AList.insert_insert]
  · intro order ctx I h opts c hc href
    obtain ⟨hmem, _, hceq, hloop⟩ := Get_loop_calls _ ctx I h opts order.entries c hc
    have h1 := lookup_of_range_entry order hmem
    simp only at h1
    rw [href, hlook] at h1
    have hC : c.providerInit = C2 := (Option.some.inj h1).symm
    have hcfull : c = ⟨P, C2, ctx, I, h, opts⟩ := by rw [hceq, href, hC]
    unfold Get
    rw [hloop, hcfull]
    exact ⟨rfl, rfl⟩

/-- C4: after any sequence of `AddProvider` calls applied to the empty registry,
and under every visiting order, the slice `SupportedProviders()` returns has no
duplicate element, holds exactly the strings that were a first argument of one
of the calls, and holds each of them exactly once. -/
theorem SupportedProviders_exact {Ctx SV E Opt W : Type}
    (calls : List (GoString × providerInit Ctx SV E Opt W)) (w : W)
    (order : MapRange (register calls w).providersMux.providers) :
    (SupportedProviders (register calls w) order).1.Nodup
      ∧ (∀ k, k ∈ (SupportedProviders (register calls w) order).1 ↔ k ∈ calls.map Prod.fst)
      ∧ (∀ k ∈ calls.map Prod.fst,
          (SupportedProviders (register calls w) order).1.count k = 1) := by
  have hperm := SupportedProviders_perm_keys (register calls w) order
  have hnd : (SupportedProviders (register calls w) order).1.Nodup :=
    hperm.nodup_iff.mpr (AList.keys_nodup _)
  have hmem : ∀ k, k ∈ (SupportedProviders (register calls w) order).1
      ↔ k ∈ calls.map Prod.fst := by
    intro k
    rw [hperm.mem_iff]
    unfold register
    rw [mem_keys_foldl_AddProvider]
    have hempty : (initial w : State Ctx SV E Opt W).providersMux.providers.keys = [] := rfl
    rw [hempty]
    constructor
    · rintro (h0 | h1)
      · exact absurd h0 (List.not_mem_nil k)
      · exact h1
    · exact Or.inr
  exact ⟨hnd, hmem, fun k hk => count_eq_one_of_nodup _ k hnd ((hmem k).mpr hk)⟩

/-- C5, as stated, fails: in the registry holding `"a"` and `"ab"` the identifier
`"ab"` begins with two registered prefixes, and `Get` still resolves it: it
makes one constructor call and returns that constructor's success. -/
theorem Get_two_matches_counterexample :
    (Example.overlap.providersMux.providers.keys.filter
        (fun P => HasPrefix (bytes "ab") P)).length = 2
      ∧ (Get Example.overlap (MapRange.stored _) () (bytes "ab") 0 []).calls.length = 1
      ∧ (Get Example.overlap (MapRange.stored _) () (bytes "ab") 0 []).ret
          = (some ⟨"AB", ["ecdsa", "rsa"]⟩, none)
      ∧ (Get Example.overlap (MapRange.reversed _) () (bytes "ab") 0 []).calls.length = 1
      ∧ (Get Example.overlap (MapRange.reversed _) () (bytes "ab") 0 []).ret
          = (some ⟨"A", ["ecdsa", "rsa"]⟩, none) := by
  refine ⟨by decide, by decide, by decide, by decide, by decide⟩

/-- C5, amended: `Get` resolves the identifier (makes a constructor call) exactly
when the identifier begins with at least one registered prefix; when it begins
with none, `Get` makes no call and returns its own no-provider error. -/
theorem Get_resolves_iff {Ctx SV E Opt W : Type} (s : State Ctx SV E Opt W)
    (order : MapRange s.providersMux.providers) (ctx : Ctx) (I : GoString) (h : Hash)
    (opts : List Opt) :
    ((Get s order ctx I h opts).calls.length = 1
        ↔ ∃ P ∈ s.providersMux.providers.keys, HasPrefix I P = true)
      ∧ ((¬ ∃ P ∈ s.providersMux.providers.keys, HasPrefix I P = true) ↔
          (Get s order ctx I h opts).calls = [])
      ∧ ((Get s order ctx I h opts).calls = [] →
          (Get s order ctx I h opts).ret
            = (none, some (GoError.errorf "no provider found for that key reference"))) := by
  by_cases hex : ∃ P ∈ s.providersMux.providers.keys, HasPrefix I P = true
  · obtain ⟨P, hP, hI⟩ := hex
    obtain ⟨v, hv⟩ := Option.isSome_iff_exists.mp (AList.lookup_isSome.mpr (AList.mem_keys.mpr hP))
    have hmem := range_entry_of_lookup order hv
    obtain ⟨pre, e, post, hl, hpre, he⟩ :=
      exists_first_match (fun x => HasPrefix I x.1) order.entries ⟨⟨P, v⟩, hmem, hI⟩
    have hloop := Get_loop_first s ctx I h opts pre post e hpre he
    unfold Get
    rw [hl, hloop]
    simp only [List.length_singleton, true_iff]
    refine ⟨⟨P, hP, hI⟩, ?_, ?_⟩
    · simp only [not_exists, not_and, Bool.not_eq_true]
      constructor
      · intro hno
        have := hno P hP
        simp [this] at hI
      · intro hnil
        cases hnil
    · intro hnil
      cases hnil
  · have hno : ∀ P ∈ s.providersMux.providers.keys, HasPrefix I P = false := by
      intro P hP
      by_contra hne
      exact hex ⟨P, hP, by simpa using hne⟩
    have hl := Get_loop_no_match s ctx I h opts order.entries
      (fun e he => hno e.1 (mem_range_key order he))
    unfold Get
    rw [hl]
    refine ⟨?_, ?_, ?_⟩
    · constructor
      · intro h0
        simp at h0
      · intro h1
        exact absurd h1 hex
    · exact ⟨fun _ => rfl, fun _ => hex⟩
    · intro _
      rfl

/-- C6: when the identifier starts with at least one registered prefix, then for
every visiting order `Get` calls the constructor of the first entry in that
order whose key is a prefix of the identifier, returns that call's result, and
makes no other constructor call (the entries before it do not match and are
not called; the entries after it are not visited). -/
theorem Get_first_in_order {Ctx SV E Opt W : Type} (s : State Ctx SV E Opt W)
    (order : MapRange s.providersMux.providers) (ctx : Ctx) (I : GoString) (h : Hash)
    (opts : List Opt)
    (hex : ∃ P ∈ s.providersMux.providers.keys, HasPrefix I P = true) :
    ∃ pre e post, order.entries = pre ++ e :: post
      ∧ (∀ x ∈ pre, HasPrefix I x.1 = false)
      ∧ HasPrefix I e.1 = true
      ∧ (Get s order ctx I h opts).calls = [⟨e.1, e.2, ctx, I, h, opts⟩]
      ∧ (Get s order ctx I h opts).ret = (e.2 ctx I h opts s.world).1
      ∧ (Get s order ctx I h opts).state
          = { s with world := (e.2 ctx I h opts s.world).2 } := by
  obtain ⟨P, hP, hI⟩ := hex
  obtain ⟨v, hv⟩ := Option.isSome_iff_exists.mp (AList.lookup_isSome.mpr (AList.mem_keys.mpr hP))
  have hmem := range_entry_of_lookup order hv
  obtain ⟨pre, e, post, hl, hpre, he⟩ :=
    exists_first_match (fun x => HasPrefix I x.1) order.entries ⟨⟨P, v⟩, hmem, hI⟩
  have hloop := Get_loop_first s ctx I h opts pre post e hpre he
  refine ⟨pre, e, post, hl, hpre, he, ?_⟩
  unfold Get
  rw [hl, hloop]
  exact ⟨rfl, rfl, rfl⟩

/-- Witness for C6: `Get(ctx, "abc", 0)` on the registry holding `"a"` and `"ab"`,
visited with `"a"` first. -/
theorem Get_first_in_order_witness :
    (∃ P ∈ Example.overlap.providersMux.providers.keys, HasPrefix (bytes "abc") P = true)
      ∧ ∃ pre e post, (MapRange.reversed Example.overlap.providersMux.providers).entries
            = pre ++ e :: post
        ∧ (∀ x ∈ pre, HasPrefix (bytes "abc") x.1 = false)
        ∧ HasPrefix (bytes "abc") e.1 = true
        ∧ (Get Example.overlap (MapRange.reversed _) () (bytes "abc") 0 []).calls
            = [⟨e.1, e.2, (), bytes "abc", 0, []⟩]
        ∧ (Get Example.overlap (MapRange.reversed _) () (bytes "abc") 0 []).ret
            = (e.2 () (bytes "abc") 0 [] Example.overlap.world).1
        ∧ (Get Example.overlap (MapRange.reversed _) () (bytes "abc") 0 []).state
            = { Example.overlap with
                world := (e.2 () (bytes "abc") 0 [] Example.overlap.world).2 } :=
  ⟨⟨bytes "a", by decide, by decide⟩,
   Get_first_in_order Example.overlap (MapRange.reversed _) () (bytes "abc") 0 []
     ⟨bytes "a", by decide, by decide⟩⟩

/-- C7: when the constructor `Get` selects (the one of the first matching entry
in the visiting order) returns the error `err` together with the value `sv`,
`Get` returns exactly `(sv, err)`, has made that one constructor call and no
other (no retry, no fallback to another matching entry), and leaves the
registry as it was. -/
theorem Get_error_passthrough {Ctx SV E Opt W : Type} (s : State Ctx SV E Opt W)
    (order : MapRange s.providersMux.providers) (ctx : Ctx) (I : GoString) (h : Hash)
    (opts : List Opt) (e : Sigma (fun _ : GoString => providerInit Ctx SV E Opt W))
    (sv : Option SV) (err : GoError E) (w2 : W)
    (hsel : order.entries.find? (fun x => HasPrefix I x.1) = some e)
    (hret : e.2 ctx I h opts s.world = ((sv, some err), w2)) :
    (Get s order ctx I h opts).ret = (sv, some err)
      ∧ (Get s order ctx I h opts).calls = [⟨e.1, e.2, ctx, I, h, opts⟩]
      ∧ (Get s order ctx I h opts).state.world = w2
      ∧ (Get s order ctx I h opts).state.providersMux = s.providersMux := by
  obtain ⟨he, pre, post, hl, hpre⟩ := List.find?_eq_some.mp hsel
  have hpre2 : ∀ x ∈ pre, HasPrefix I x.1 = false := by
    intro x hx
    simpa using hpre x hx
  have hloop := Get_loop_first s ctx I h opts pre post e hpre2 he
  unfold Get
  rw [hl, hloop, hret]
  exact ⟨rfl, rfl, rfl, rfl⟩

/-- Witness for C7: in the registry holding `"a"` (failing constructor) and `"ab"`
(succeeding constructor), visited with `"a"` first, `Get(ctx, "ab", 0)` returns
the error of the constructor of `"a"`. -/
theorem Get_error_passthrough_witness :
    ((MapRange.stored Example.failFirst.providersMux.providers).entries.find?
          (fun x => HasPrefix (bytes "ab") x.1) = some ⟨bytes "a", Example.failing "boom"⟩
      ∧ Example.failing "boom" () (bytes "ab") 0 [] Example.failFirst.world
          = ((none, some (GoError.other "boom")), 1))
      ∧ (Get Example.failFirst (MapRange.stored _) () (bytes "ab") 0 []).ret
          = (none, some (GoError.other "boom"))
      ∧ (Get Example.failFirst (MapRange.stored _) () (bytes "ab") 0 []).calls
          = [⟨bytes "a", Example.failing "boom", (), bytes "ab", 0, []⟩]
      ∧ (Get Example.failFirst (MapRange.stored _) () (bytes "ab") 0 []).state.world = 1
      ∧ (Get Example.failFirst (MapRange.stored _) () (bytes "ab") 0 []).state.providersMux
          = Example.failFirst.providersMux :=
  ⟨⟨rfl, rfl⟩,
   Get_error_passthrough Example.failFirst (MapRange.stored _) () (bytes "ab") 0 []
     ⟨bytes "a", Example.failing "boom"⟩ none (GoError.other "boom") 1 rfl rfl⟩

/-- C8: every constructor call `Get` makes receives exactly the caller's
arguments: the same context, the whole identifier (the matched key `c.ref` is
a prefix of it and is not removed), the same hash selector and the same
options in the same order; what `Get` returns is the result of the
constructor on those arguments. -/
theorem Get_passes_arguments {Ctx SV E Opt W : Type} (s : State Ctx SV E Opt W)
    (order : MapRange s.providersMux.providers) (ctx : Ctx) (I : GoString) (h : Hash)
    (opts : List Opt) (c : Invocation Ctx SV E Opt W)
    (hc : c ∈ (Get s order ctx I h opts).calls) :
    c.ctx = ctx ∧ c.keyResourceID = I ∧ c.hashFunc = h ∧ c.opts = opts
      ∧ HasPrefix c.keyResourceID c.ref = true
      ∧ (Get s order ctx I h opts).ret
          = (c.providerInit c.ctx c.keyResourceID c.hashFunc c.opts s.world).1
      ∧ (Get s order ctx I h opts).ret = (c.providerInit ctx I h opts s.world).1 := by
  obtain ⟨_, hpre, hceq, hloop⟩ := Get_loop_calls s ctx I h opts order.entries c hc
  have h1 : c.ctx = ctx := by rw [hceq]
  have h2 : c.keyResourceID = I := by rw [hceq]
  have h3 : c.hashFunc = h := by rw [hceq]
  have h4 : c.opts = opts := by rw [hceq]
  refine ⟨h1, h2, h3, h4, by rw [h2]; exact hpre, ?_, ?_⟩
  · rw [h1, h2, h3, h4]
    unfold Get
    rw [hloop]
  · unfold Get
    rw [hloop]

/-- Witness for C8: `Get(ctx, "test-kms://my-key", 7, 1, 2, 3)` on the registry
holding only `"test-kms://"`. -/
theorem Get_passes_arguments_witness :
    (⟨bytes "test-kms://", Example.stub "ecdsa", (), bytes "test-kms://my-key", 7, [1, 2, 3]⟩ :
        Invocation Unit Example.StubSV String Nat Nat)
        ∈ (Get Example.testKms (MapRange.stored _) () (bytes "test-kms://my-key") 7
            [1, 2, 3]).calls
      ∧ HasPrefix (bytes "test-kms://my-key") (bytes "test-kms://") = true
      ∧ (Get Example.testKms (MapRange.stored _) () (bytes "test-kms://my-key") 7
            [1, 2, 3]).ret
          = (Example.stub "ecdsa" () (bytes "test-kms://my-key") 7 [1, 2, 3]
              Example.testKms.world).1 :=
  have hc : (⟨bytes "test-kms://", Example.stub "ecdsa", (), bytes "test-kms://my-key", 7,
        [1, 2, 3]⟩ : Invocation Unit Example.StubSV String Nat Nat)
      ∈ (Get Example.testKms (MapRange.stored _) () (bytes "test-kms://my-key") 7
          [1, 2, 3]).calls := List.Mem.head _
  have hall := Get_passes_arguments Example.testKms (MapRange.stored _) ()
    (bytes "test-kms://my-key") 7 [1, 2, 3] _ hc
  ⟨hc, hall.2.2.2.2.1, hall.2.2.2.2.2.2⟩

/-- C9: `Get` and `SupportedProviders` do not change the registry: the registry
after `Get` (match or no match) is the registry before it, `SupportedProviders`
returns the state it was given, and a second `SupportedProviders()` call, or one
made after a `Get`, returns the same strings as the first, whatever the
visiting orders.  Constructors act on the world outside the registry only. -/
theorem reads_leave_registry {Ctx SV E Opt W : Type} (s : State Ctx SV E Opt W)
    (order : MapRange s.providersMux.providers) (ctx : Ctx) (I : GoString) (h : Hash)
    (opts : List Opt) (o1 : MapRange s.providersMux.providers)
    (o2 : MapRange (SupportedProviders s o1).2.providersMux.providers)
    (o3 : MapRange (Get s order ctx I h opts).state.providersMux.providers) :
    (Get s order ctx I h opts).state.providersMux = s.providersMux
      ∧ (SupportedProviders s o1).2 = s
      ∧ (SupportedProviders s o1).1.Perm (SupportedProviders (SupportedProviders s o1).2 o2).1
      ∧ (∀ k, k ∈ (SupportedProviders s o1).1
          ↔ k ∈ (SupportedProviders (SupportedProviders s o1).2 o2).1)
      ∧ (SupportedProviders s o1).1.Perm
          (SupportedProviders (Get s order ctx I h opts).state o3).1 := by
  have hreg : (Get s order ctx I h opts).state.providersMux = s.providersMux :=
    Get_loop_registry s ctx I h opts order.entries
  have h1 := SupportedProviders_perm_keys s o1
  have h2 := SupportedProviders_perm_keys (SupportedProviders s o1).2 o2
  have h3 := SupportedProviders_perm_keys (Get s order ctx I h opts).state o3
  rw [hreg] at h3
  have h12 : (SupportedProviders s o1).1.Perm
      (SupportedProviders (SupportedProviders s o1).2 o2).1 := h1.trans h2.symm
  exact ⟨hreg, rfl, h12, fun k => h12.mem_iff, h1.trans h3.symm⟩

/-- C10: the match test of `Get` is literal byte-wise prefix.  `HasPrefix I P`
holds exactly when `I = P ++ S` for some `S`; an identifier of the length of
`P` that differs from `P` in any byte (in letter case, for one) does not match,
nor does a proper prefix of `P`; on the registry holding only `P`, `Get` calls
the constructor exactly when `I = P ++ S` for some `S`; and in every registry
the key of the entry `Get` resolves through is a literal prefix of `I`. -/
theorem HasPrefix_literal {Ctx SV E Opt W : Type} :
    (∀ I P : GoString, HasPrefix I P = true ↔ ∃ S, I = P ++ S)
      ∧ (∀ I P : GoString, I.length = P.length → I ≠ P → HasPrefix I P = false)
      ∧ (∀ I P : GoString, (∃ S, S ≠ [] ∧ P = I ++ S) → HasPrefix I P = false)
      ∧ (∀ (P : GoString) (init : providerInit Ctx SV E Opt W) (w : W)
          (order : MapRange (AddProvider P init (initial w)).providersMux.providers)
          (ctx : Ctx) (I : GoString) (h : Hash) (opts : List Opt),
          (Get (AddProvider P init (initial w)) order ctx I h opts).calls
              = [⟨P, init, ctx, I, h, opts⟩]
            ↔ ∃ S, I = P ++ S)
      ∧ (∀ (s : State Ctx SV E Opt W) (order : MapRange s.providersMux.providers)
          (ctx : Ctx) (I : GoString) (h : Hash) (opts : List Opt),
          ∀ c ∈ (Get s order ctx I h opts).calls, ∃ S, I = c.ref ++ S)
      ∧ HasPrefix (bytes "TEST-KMS://my-key") (bytes "test-kms://") = false
      ∧ HasPrefix (bytes "test-kms") (bytes "test-kms://") = false
      ∧ HasPrefix (bytes "test-kms://my-key") (bytes "test-*") = false := by
  refine ⟨HasPrefix_iff_append, ?_, ?_, ?_, ?_, by decide, by decide, by decide⟩
  · intro I P hlen hne
    by_contra hm
    have hm2 : HasPrefix I P = true := by simpa using hm
    obtain ⟨S, hS⟩ := (HasPrefix_iff_append I P).mp hm2
    have hSlen : S.length = 0 := by
      have := congrArg List.length hS
      simp only [List.length_append] at this
      omega
    have hnil : S = [] := List.length_eq_zero.mp hSlen
    rw [hnil, List.append_nil] at hS
    exact hne hS
  · rintro I P ⟨S, hSne, hS⟩
    by_contra hm
    have hm2 : HasPrefix I P = true := by simpa using hm
    obtain ⟨T, hT⟩ := (HasPrefix_iff_append I P).mp hm2
    have hlen := congrArg List.length hT
    rw [hS] at hlen
    simp only [List.length_append] at hlen
    have hSlen : S.length = 0 := by omega
    exact hSne (List.length_eq_zero.mp hSlen)
  · intro P init w order ctx I h opts
    have hlook : (AddProvider P init (initial w)).providersMux.providers.lookup P
        = some init := by
      simp [AddProvider]
    have hkeys : ∀ Q ∈ (AddProvider P init (initial w)).providersMux.providers.keys, Q = P := by
      intro Q hQ
      have hQ2 := AList.mem_keys.mpr hQ
      simp only [AddProvider, AList.mem_insert] at hQ2
      rcases hQ2 with rfl | hQ3
      · rfl
      · exact absurd hQ3 (AList.not_mem_empty Q)
    rw [← HasPrefix_iff_append]
    constructor
    · intro hcalls
      have hc : (⟨P, init, ctx, I, h, opts⟩ : Invocation Ctx SV E Opt W)
          ∈ (Get (AddProvider P init (initial w)) order ctx I h opts).calls := by
        rw [hcalls]
        exact List.mem_singleton.mpr rfl
      exact (Get_loop_calls _ ctx I h opts order.entries _ hc).2.1
    · intro hI
      have hmem := range_entry_of_lookup order hlook
      obtain ⟨pre, e, post, hl, hpre, he⟩ :=
        exists_first_match (fun x => HasPrefix I x.1) order.entries ⟨⟨P, init⟩, hmem, hI⟩
      have hemem : e ∈ order.entries := by rw [hl]; simp
      have hkey : e.1 = P := hkeys e.1 (mem_range_key order hemem)
      have hlk := lookup_of_range_entry order hemem
      rw [hkey, hlook] at hlk
      have hval : e.2 = init := (Option.some.inj hlk).symm
      have hloop := Get_loop_first (AddProvider P init (initial w)) ctx I h opts pre post e
        hpre he
      unfold Get
      rw [hl, hloop, hkey, hval]
  · intro s order ctx I h opts c hc
    exact (HasPrefix_iff_append I c.ref).mp
      (Get_loop_calls s ctx I h opts order.entries c hc).2.1

/-- C11: `AddProvider` stores the empty prefix like any other key, and in every
registry that holds an entry for the empty prefix, for every identifier (the
empty one included) and every visiting order, `Get` makes one call to the
constructor of a registered entry and returns that call's result; the final
`return` with the no-provider error is not reached. -/
theorem Get_with_empty_prefix {Ctx SV E Opt W : Type} (s : State Ctx SV E Opt W)
    (order : MapRange s.providersMux.providers) (ctx : Ctx) (I : GoString) (h : Hash)
    (opts : List Opt)
    (hempty : ([] : GoString) ∈ s.providersMux.providers.keys) :
    (∃ c, (Get s order ctx I h opts).calls = [c]
        ∧ (⟨c.ref, c.providerInit⟩ : Sigma (fun _ : GoString => providerInit Ctx SV E Opt W))
            ∈ s.providersMux.providers.entries
        ∧ (Get s order ctx I h opts).ret = (c.providerInit ctx I h opts s.world).1)
      ∧ (Get s order ctx I h opts).calls ≠ []
      ∧ (∀ (init : providerInit Ctx SV E Opt W) (t : State Ctx SV E Opt W),
          (AddProvider [] init t).providersMux.providers.lookup [] = some init
            ∧ ([] : GoString) ∈ (AddProvider [] init t).providersMux.providers.keys) := by
  obtain ⟨e, hemem, _, hget⟩ := Get_of_match s order ctx I h opts [] hempty (HasPrefix_nil I)
  refine ⟨⟨⟨e.1, e.2, ctx, I, h, opts⟩, ?_, hemem, ?_⟩, ?_, ?_⟩
  · rw [hget]
  · rw [hget]
  · rw [hget]
    exact List.cons_ne_nil _ _
  · intro init t
    have hl : (AddProvider [] init t).providersMux.providers.lookup [] = some init := by
      simp [AddProvider]
    refine ⟨hl, ?_⟩
    exact AList.mem_keys.mp ((AList.mem_insert _).mpr (Or.inl rfl))

/-- Witness for C11: `Get(ctx, "", 0)` on the registry holding `"test-kms://"` and
the empty prefix. -/
theorem Get_with_empty_prefix_witness :
    ([] : GoString) ∈ Example.withEmpty.providersMux.providers.keys
      ∧ (∃ c, (Get Example.withEmpty (MapRange.reversed _) () [] 0 []).calls = [c]
          ∧ (⟨c.ref, c.providerInit⟩ : Sigma (fun _ : GoString => Example.Init))
              ∈ Example.withEmpty.providersMux.providers.entries
          ∧ (Get Example.withEmpty (MapRange.reversed _) () [] 0 []).ret
              = (c.providerInit () [] 0 [] Example.withEmpty.world).1)
      ∧ (Get Example.withEmpty (MapRange.reversed _) () [] 0 []).calls ≠ [] :=
  have hall := Get_with_empty_prefix Example.withEmpty (MapRange.reversed _) () [] 0 []
    (by decide)
  ⟨by decide, hall.1, hall.2.1⟩

/-- C12: registration is order-independent and idempotent.  For `P1 ≠ P2` the two
orders of `AddProvider(P1, C1)` and `AddProvider(P2, C2)` give registries with
the same key-to-constructor mapping, the same entries up to order, the same
visiting orders and the same `SupportedProviders` strings; and
`AddProvider(P, C)` made twice gives the state that making it once gives. -/
theorem AddProvider_comm_idem {Ctx SV E Opt W : Type} (s : State Ctx SV E Opt W)
    (P1 P2 : GoString) (C1 C2 : providerInit Ctx SV E Opt W) (hne : P1 ≠ P2) :
    (∀ k, (AddProvider P2 C2 (AddProvider P1 C1 s)).providersMux.providers.lookup k
        = (AddProvider P1 C1 (AddProvider P2 C2 s)).providersMux.providers.lookup k)
      ∧ (AddProvider P2 C2 (AddProvider P1 C1 s)).providersMux.providers.entries.Perm
          (AddProvider P1 C1 (AddProvider P2 C2 s)).providersMux.providers.entries
      ∧ (AddProvider P2 C2 (AddProvider P1 C1 s)).world
          = (AddProvider P1 C1 (AddProvider P2 C2 s)).world
      ∧ (∀ o12 : MapRange (AddProvider P2 C2 (AddProvider P1 C1 s)).providersMux.providers,
          ∃ o21 : MapRange (AddProvider P1 C1 (AddProvider P2 C2 s)).providersMux.providers,
            o21.entries = o12.entries)
      ∧ (∀ (o12 : MapRange (AddProvider P2 C2 (AddProvider P1 C1 s)).providersMux.providers)
          (o21 : MapRange (AddProvider P1 C1 (AddProvider P2 C2 s)).providersMux.providers),
          (SupportedProviders (AddProvider P2 C2 (AddProvider P1 C1 s)) o12).1.Perm
            (SupportedProviders (AddProvider P1 C1 (AddProvider P2 C2 s)) o21).1)
      ∧ (∀ (P : GoString) (C : providerInit Ctx SV E Opt W),
          AddProvider P C (AddProvider P C s) = AddProvider P C s) := by
  have hperm : (AddProvider P2 C2 (AddProvider P1 C1 s)).providersMux.providers.entries.Perm
      (AddProvider P1 C1 (AddProvider P2 C2 s)).providersMux.providers.entries :=
    AList.insert_insert_of_ne s.providersMux.providers hne
  refine ⟨fun k => AList.perm_lookup hperm, hperm, rfl, ?_, ?_, ?_⟩
  · intro o12
    exact ⟨⟨o12.entries, o12.perm.trans hperm⟩, rfl⟩
  · intro o12 o21
    have h1 := SupportedProviders_perm_keys _ o12
    have h2 := SupportedProviders_perm_keys _ o21
    have hk : (AddProvider P2 C2 (AddProvider P1 C1 s)).providersMux.providers.keys.Perm
        (AddProvider P1 C1 (AddProvider P2 C2 s)).providersMux.providers.keys := by
      simpa [AList.keys, List.keys] using hperm.map Sigma.fst
    exact h1.trans (hk.trans h2.symm)
  · intro P C
    simp [AddProvider, AList.insert_insert]

/-- Witness for C12: registering `"a"` and `"ab"` in the two orders on the empty
registry. -/
theorem AddProvider_comm_idem_witness :
    bytes "a" ≠ bytes "ab"
      ∧ (∀ k, (AddProvider (bytes "ab") (Example.stub "AB")
            (AddProvider (bytes "a") (Example.stub "A") Example.empty)).providersMux.providers.lookup k
          = (AddProvider (bytes "a") (Example.stub "A")
            (AddProvider (bytes "ab") (Example.stub "AB")
              Example.empty)).providersMux.providers.lookup k)
      ∧ (AddProvider (bytes "ab") (Example.stub "AB")
            (AddProvider (bytes "a") (Example.stub "A")
              Example.empty)).providersMux.providers.entries.Perm
          (AddProvider (bytes "a") (Example.stub "A")
            (AddProvider (bytes "ab") (Example.stub "AB")
              Example.empty)).providersMux.providers.entries :=
  have hall := AddProvider_comm_idem Example.empty (bytes "a") (bytes "ab") (Example.stub "A")
    (Example.stub "AB") (by decide)
  ⟨by decide, hall.1, hall.2.1⟩

/-- C13: the registry starts empty and only grows.  On the state at process
start `SupportedProviders()` returns the empty slice; a key that is registered
in some state is registered in every state reached from it by any sequence of
`AddProvider`, `Get` and `SupportedProviders` calls, and is then listed by
`SupportedProviders()` under every visiting order; and every sequence of
calls does reach a state. -/
theorem registry_only_grows {Ctx SV E Opt W : Type} (s t : State Ctx SV E Opt W)
    (cs : List (Call Ctx SV E Opt W)) (k : GoString) (hrun : Run s cs t)
    (hk : k ∈ s.providersMux.providers.keys) :
    k ∈ t.providersMux.providers.keys
      ∧ (∀ order : MapRange t.providersMux.providers, k ∈ (SupportedProviders t order).1)
      ∧ (∀ (w : W) (order : MapRange (initial w : State Ctx SV E Opt W).providersMux.providers),
          (SupportedProviders (initial w : State Ctx SV E Opt W) order).1 = [])
      ∧ (∀ (s0 : State Ctx SV E Opt W) (cs0 : List (Call Ctx SV E Opt W)),
          ∃ t0, Run s0 cs0 t0) := by
  have hkt := Run_keeps_keys hrun k hk
  refine ⟨hkt, ?_, ?_, fun s0 cs0 => Run_total cs0 s0⟩
  · intro order
    exact (SupportedProviders_perm_keys t order).mem_iff.mpr hkt
  · intro w order
    have hp := SupportedProviders_perm_keys (initial w : State Ctx SV E Opt W) order
    have hempty : (initial w : State Ctx SV E Opt W).providersMux.providers.keys = [] := rfl
    rw [hempty] at hp
    exact List.Perm.eq_nil hp

/-- Witness for C13: from the registry holding `"test-kms://"`, a failing `Get`, an
`AddProvider("a", ...)` and a `SupportedProviders()` call keep `"test-kms://"`
registered. -/
theorem registry_only_grows_witness :
    ∃ t, Run Example.testKms
          [Call.get () (bytes "x") 0 [], Call.addProvider (bytes "a") (Example.stub "A"),
            Call.supportedProviders] t
      ∧ bytes "test-kms://" ∈ Example.testKms.providersMux.providers.keys
      ∧ bytes "test-kms://" ∈ t.providersMux.providers.keys
      ∧ (∀ order : MapRange t.providersMux.providers,
          bytes "test-kms://" ∈ (SupportedProviders t order).1) :=
  have hrun := Run.cons (Step.get Example.testKms (MapRange.stored _) () (bytes "x") 0 [])
    (Run.cons (Step.addProvider _ (bytes "a") (Example.stub "A"))
      (Run.cons (Step.supportedProviders _ (MapRange.stored _)) (Run.nil _)))
  have hall := registry_only_grows _ _ _ (bytes "test-kms://") hrun (by decide)
  ⟨_, hrun, by decide, hall.1, hall.2.1⟩

/-- C14, as stated, fails in its last part: after `AddProvider("x", ...)` on the
registry holding `"a"` and `"ab"`, a `Get` on `"ab"` (which starts with the
registered `"ab"` and not with `"x"`) can return the object of `"ab"`, while
before the call, under another visiting order, it returned the object of
`"a"`. -/
theorem AddProvider_frame_counterexample :
    Example.withX = AddProvider (bytes "x") (Example.stub "X") Example.overlap
      ∧ bytes "ab" ≠ bytes "x"
      ∧ bytes "ab" ∈ Example.overlap.providersMux.providers.keys
      ∧ HasPrefix (bytes "ab") (bytes "ab") = true
      ∧ HasPrefix (bytes "ab") (bytes "x") = false
      ∧ (Get Example.overlap (MapRange.reversed _) () (bytes "ab") 0 []).ret
          = (some ⟨"A", ["ecdsa", "rsa"]⟩, none)
      ∧ (Get Example.withX (MapRange.stored _) () (bytes "ab") 0 []).ret
          = (some ⟨"AB", ["ecdsa", "rsa"]⟩, none)
      ∧ (Get Example.overlap (MapRange.reversed _) () (bytes "ab") 0 []).ret
          ≠ (Get Example.withX (MapRange.stored _) () (bytes "ab") 0 []).ret := by
  refine ⟨rfl, by decide, by decide, by decide, by decide, by decide, by decide, by decide⟩

/-- C14, amended: `AddProvider(P, C)` changes only the entry for `P`.  Every key
`Q ≠ P` is registered after the call exactly when it was before, with the
same constructor, and the world is untouched; and a `Get` on an identifier
that does not start with `P` returns the same pair, makes the same constructor
call and leaves the same world before and after the call whenever the two
runs visit the entries other than the one for `P` in the same order.  Every
visiting order before the call has such a counterpart after it, and
conversely. -/
theorem AddProvider_frame {Ctx SV E Opt W : Type} (s : State Ctx SV E Opt W)
    (P : GoString) (C : providerInit Ctx SV E Opt W) (Q : GoString)
    (o : MapRange s.providersMux.providers)
    (o2 : MapRange (AddProvider P C s).providersMux.providers)
    (ctx : Ctx) (I : GoString) (h : Hash) (opts : List Opt)
    (hQ : Q ≠ P) (hI : HasPrefix I P = false)
    (hsame : o2.entries.filter (fun e => decide (e.1 ≠ P))
      = o.entries.filter (fun e => decide (e.1 ≠ P))) :
    ((Q ∈ (AddProvider P C s).providersMux.providers.keys ↔ Q ∈ s.providersMux.providers.keys)
        ∧ (AddProvider P C s).providersMux.providers.lookup Q
            = s.providersMux.providers.lookup Q
        ∧ (AddProvider P C s).world = s.world)
      ∧ ((Get (AddProvider P C s) o2 ctx I h opts).ret = (Get s o ctx I h opts).ret
        ∧ (Get (AddProvider P C s) o2 ctx I h opts).calls = (Get s o ctx I h opts).calls
        ∧ (Get (AddProvider P C s) o2 ctx I h opts).state.world
            = (Get s o ctx I h opts).state.world)
      ∧ (∀ o1 : MapRange s.providersMux.providers,
          ∃ o3 : MapRange (AddProvider P C s).providersMux.providers,
            o3.entries.filter (fun e => decide (e.1 ≠ P))
              = o1.entries.filter (fun e => decide (e.1 ≠ P)))
      ∧ (∀ o3 : MapRange (AddProvider P C s).providersMux.providers,
          ∃ o1 : MapRange s.providersMux.providers,
            o3.entries.filter (fun e => decide (e.1 ≠ P))
              = o1.entries.filter (fun e => decide (e.1 ≠ P))) := by
  have hentries : (AddProvider P C s).providersMux.providers.entries
      = ⟨P, C⟩ :: List.kerase P s.providersMux.providers.entries := AList.insert_entries
  refine ⟨⟨?_, ?_, rfl⟩, ?_, ?_, ?_⟩
  · rw [← AList.mem_keys, ← AList.mem_keys]
    simp only [AddProvider, AList.mem_insert]
    constructor
    · rintro (h1 | h2)
      · exact absurd h1 hQ
      · exact h2
    · exact Or.inr
  · exact AList.lookup_insert_ne hQ
  · have h1 := Get_loop_filter (AddProvider P C s) ctx I h opts P hI o2.entries
    have h2 := Get_loop_filter s ctx I h opts P hI o.entries
    have h3 := Get_loop_world_congr (AddProvider P C s) s rfl ctx I h opts
      (o.entries.filter (fun e => decide (e.1 ≠ P)))
    unfold Get
    rw [← h1, ← h2, hsame]
    exact h3
  · intro o1
    have hp : (⟨P, C⟩ :: o1.entries.filter (fun e => decide (e.1 ≠ P))).Perm
        (AddProvider P C s).providersMux.providers.entries := by
      rw [hentries, kerase_eq_filter_of_nodupKeys P _ s.providersMux.providers.nodupKeys]
      exact List.Perm.cons _ (o1.perm.filter _)
    refine ⟨⟨_, hp⟩, ?_⟩
    show (List.filter (fun e => decide (e.1 ≠ P))
      (⟨P, C⟩ :: o1.entries.filter (fun e => decide (e.1 ≠ P)))) = _
    rw [List.filter_cons_of_neg (by simp), List.filter_filter]
    simp
  · intro o3
    have hf : (o3.entries.filter (fun e => decide (e.1 ≠ P))).Perm
        (s.providersMux.providers.entries.filter (fun e => decide (e.1 ≠ P))) := by
      have h1 := o3.perm.filter (fun e => decide (e.1 ≠ P))
      rw [hentries, List.filter_cons_of_neg (by simp), filter_ne_kerase] at h1
      exact h1
    have hsplit := List.filter_append_perm (fun e => decide (e.1 = P))
      s.providersMux.providers.entries
    have hfun : (fun x : Sigma (fun _ : GoString => providerInit Ctx SV E Opt W) =>
        !decide (x.1 = P)) = (fun e => decide (e.1 ≠ P)) := by
      funext x
      simp
    rw [hfun] at hsplit
    have hp : (s.providersMux.providers.entries.filter (fun e => decide (e.1 = P))
        ++ o3.entries.filter (fun e => decide (e.1 ≠ P))).Perm
        s.providersMux.providers.entries :=
      (List.Perm.append_left _ hf).trans hsplit
    refine ⟨⟨_, hp⟩, ?_⟩
    show _ = List.filter (fun e => decide (e.1 ≠ P))
      (s.providersMux.providers.entries.filter (fun e => decide (e.1 = P))
        ++ o3.entries.filter (fun e => decide (e.1 ≠ P)))
    rw [List.filter_append, List.filter_filter, List.filter_filter]
    simp

/-- Witness for C14 (amended): `AddProvider("x", ...)` on the registry holding
`"a"` and `"ab"`, then `Get(ctx, "ab", 0)` with both registries visited in
stored order. -/
theorem AddProvider_frame_witness :
    (bytes "ab" ≠ bytes "x"
      ∧ HasPrefix (bytes "ab") (bytes "x") = false
      ∧ (MapRange.stored (AddProvider (bytes "x") (Example.stub "X")
            Example.overlap).providersMux.providers).entries.filter
              (fun e => decide (e.1 ≠ bytes "x"))
          = (MapRange.stored Example.overlap.providersMux.providers).entries.filter
              (fun e => decide (e.1 ≠ bytes "x")))
      ∧ (AddProvider (bytes "x") (Example.stub "X") Example.overlap).providersMux.providers.lookup
            (bytes "ab")
          = Example.overlap.providersMux.providers.lookup (bytes "ab")
      ∧ (Get (AddProvider (bytes "x") (Example.stub "X") Example.overlap) (MapRange.stored _) ()
            (bytes "ab") 0 []).ret
          = (Get Example.overlap (MapRange.stored _) () (bytes "ab") 0 []).ret :=
  have hall := AddProvider_frame Example.overlap (bytes "x") (Example.stub "X") (bytes "ab")
    (MapRange.stored _) (MapRange.stored _) () (bytes "ab") 0 [] (by decide) (by decide) rfl
  ⟨⟨by decide, by decide, rfl⟩, hall.1.2.1, hall.2.1.1⟩

/-- C15: when at most one registered prefix is a prefix of the identifier, `Get`
does not depend on the visiting order: under any two orders it returns the
same pair, makes the same constructor call (or none, with the no-provider
error) and leaves the same state. -/
theorem Get_order_independent {Ctx SV E Opt W : Type} (s : State Ctx SV E Opt W)
    (o1 o2 : MapRange s.providersMux.providers) (ctx : Ctx) (I : GoString) (h : Hash)
    (opts : List Opt)
    (hone : ∀ Q1 ∈ s.providersMux.providers.keys, ∀ Q2 ∈ s.providersMux.providers.keys,
      HasPrefix I Q1 = true → HasPrefix I Q2 = true → Q1 = Q2) :
    Get s o1 ctx I h opts = Get s o2 ctx I h opts
      ∧ (Get s o1 ctx I h opts).ret = (Get s o2 ctx I h opts).ret
      ∧ (Get s o1 ctx I h opts).calls = (Get s o2 ctx I h opts).calls
      ∧ (((Get s o1 ctx I h opts).calls = []
            ∧ (Get s o1 ctx I h opts).ret
              = (none, some (GoError.errorf "no provider found for that key reference")))
          ∨ ∃ c, (Get s o1 ctx I h opts).calls = [c]
            ∧ (Get s o1 ctx I h opts).ret = (c.providerInit ctx I h opts s.world).1) := by
  have heq := Get_determined s o1 o2 ctx I h opts hone
  refine ⟨heq, by rw [heq], by rw [heq], ?_⟩
  by_cases hex : ∃ P ∈ s.providersMux.providers.keys, HasPrefix I P = true
  · obtain ⟨P, hP, hI⟩ := hex
    obtain ⟨e, _, _, hg⟩ := Get_of_match s o1 ctx I h opts P hP hI
    refine Or.inr ⟨⟨e.1, e.2, ctx, I, h, opts⟩, ?_, ?_⟩
    · rw [hg]
    · rw [hg]
  · have hno : ∀ P ∈ s.providersMux.providers.keys, HasPrefix I P = false := by
      intro P hP
      by_contra hne
      exact hex ⟨P, hP, by simpa using hne⟩
    have hl := Get_loop_no_match s ctx I h opts o1.entries
      (fun e he => hno e.1 (mem_range_key o1 he))
    refine Or.inl ?_
    unfold Get
    rw [hl]
    exact ⟨rfl, rfl⟩

/-- Witness for C15: `Get(ctx, "abc", 0)` on the registry holding `"a"` and `"b"`,
visited in stored and in opposite order. -/
theorem Get_order_independent_witness :
    (∀ Q1 ∈ Example.apart.providersMux.providers.keys,
        ∀ Q2 ∈ Example.apart.providersMux.providers.keys,
          HasPrefix (bytes "abc") Q1 = true → HasPrefix (bytes "abc") Q2 = true → Q1 = Q2)
      ∧ Get Example.apart (MapRange.stored _) () (bytes "abc") 0 []
          = Get Example.apart (MapRange.reversed _) () (bytes "abc") 0 []
      ∧ (Get Example.apart (MapRange.stored _) () (bytes "abc") 0 []).ret
          = (some ⟨"A", ["ecdsa", "rsa"]⟩, none) :=
  have hall := Get_order_independent Example.apart (MapRange.stored _) (MapRange.reversed _) ()
    (bytes "abc") 0 [] (by decide)
  ⟨by decide, hall.1, by decide⟩

end kms
